import Mathlib

/-!
Verification of the `advanced-vector` repository (src/advanced-vector/vector.h):
a shallow embedding of `RawMemory<T>` and `Vector<T>`.

Memory model: a raw storage block is a list of slots, one per element of
capacity; a slot holds `some x` when a constructed object with value `x`
lives there, and `none` when the slot is uninitialized raw memory.
Placement-new writes `some x`, an explicit destructor call writes `none`,
and a value-level read of uninitialized or out-of-range memory yields
`none`.  Move construction / move assignment of elements are modelled at
the value level: the value is transferred and the (moved-from) source
object stays constructed, so the source slot keeps its `some`.
-/

namespace AdvVec


/-- A block of raw storage: one entry per slot of the allocation.
`some x` = a constructed object with value `x`; `none` = raw memory. -/
abbrev Slots (α : Type) := List (Option α)

/-- Reading slot `i`: the constructed value if one is there, `none` for
uninitialized or out-of-range memory. -/
def readSlot : Slots α → Nat → Option α
  | [], _ => none
  | a :: _, 0 => a
  | _ :: s, i + 1 => readSlot s i

/-- Models `std::destroy_n(base + start, n)`: runs the destructor on `n`
consecutive slots, leaving them uninitialized. -/
def destroyN (s : Slots α) (start n : Nat) : Slots α :=
  match n with
  | 0 => s
  | m + 1 => destroyN (s.set start none) (start + 1) m

/-- Models `std::uninitialized_value_construct_n(base + start, n)`:
value-constructs `n` consecutive elements.  The second component counts
the constructions performed. -/
def valueConstructN [Inhabited α] (s : Slots α) (start n : Nat) : Slots α :=
  match n with
  | 0 => s
  | m + 1 => valueConstructN (s.set start (some default)) (start + 1) m

/-- Models `std::uninitialized_copy_n(src + srcStart, n, dst + dstStart)`:
copy-constructs `n` elements of `src` into raw slots of `dst`, in index
order.  The second component counts the copy-constructions performed. -/
def uninitializedCopyN (src : Slots α) (srcStart n : Nat) (dst : Slots α) (dstStart : Nat) :
    Slots α × Nat :=
  match n with
  | 0 => (dst, 0)
  | m + 1 =>
    let r := uninitializedCopyN src (srcStart + 1) m
      (dst.set dstStart (readSlot src srcStart)) (dstStart + 1)
    (r.1, r.2 + 1)

/-- Models `std::uninitialized_move_n(src + srcStart, n, dst + dstStart)`:
move-constructs `n` elements of `src` into raw slots of `dst`, in index
order.  At the value level a move-construction transfers the value and
leaves the source object constructed (moved-from), so the source slots
keep their `some`.  The second component counts the move-constructions. -/
def uninitializedMoveN (src : Slots α) (srcStart n : Nat) (dst : Slots α) (dstStart : Nat) :
    Slots α × Nat :=
  match n with
  | 0 => (dst, 0)
  | m + 1 =>
    let r := uninitializedMoveN src (srcStart + 1) m
      (dst.set dstStart (readSlot src srcStart)) (dstStart + 1)
    (r.1, r.2 + 1)

/-- Models `std::copy(src + srcStart, src + srcStart + n, dst + dstStart)`:
copy-assigns `n` elements of `src` onto slots of `dst`, in index order.
Copy assignment requires a live object in the target slot; the second
component counts the assignments whose target slot was uninitialized raw
memory (each such assignment is undefined behaviour in the source). -/
def stdCopy (src : Slots α) (srcStart n : Nat) (dst : Slots α) (dstStart : Nat) :
    Slots α × Nat :=
  match n with
  | 0 => (dst, 0)
  | m + 1 =>
    let u := if (readSlot dst dstStart).isNone then 1 else 0
    let r := stdCopy src (srcStart + 1) m
      (dst.set dstStart (readSlot src srcStart)) (dstStart + 1)
    (r.1, r.2 + u)

/-- Models `std::move(base + first + 1, base + first + 1 + cnt, base + first)`
(and the value-identical `std::copy` variant): the overlapping shift of a
range one slot toward the front, by forward move/copy assignment, as used
in `Vector::Erase`.  The second component counts the assignments. -/
def shiftLeftOne (s : Slots α) (first cnt : Nat) : Slots α × Nat :=
  match cnt with
  | 0 => (s, 0)
  | c + 1 =>
    let r := shiftLeftOne (s.set first (readSlot s (first + 1))) (first + 1) c
    (r.1, r.2 + 1)

/-- Models `std::move_backward(base + first, base + first + cnt, base + first + cnt + 1)`:
the overlapping shift of a range one slot toward the back, by backward
move assignment, as used in the non-growing interior branch of
`Vector::Emplace`. -/
def moveBackwardOne (s : Slots α) (first cnt : Nat) : Slots α :=
  match cnt with
  | 0 => s
  | c + 1 => moveBackwardOne (s.set (first + c + 1) (readSlot s (first + c))) first c

/-- Models `RawMemory<T>`: an owning handle to a block of uninitialized
memory.  `buffer_ == nullptr ∧ capacity_ == 0` corresponds to
`slots = []`; otherwise `slots.length` is `capacity_`. -/
structure RawMemory (α : Type) where
  slots : Slots α
  deriving DecidableEq, Repr

/-- `RawMemory::Capacity()`. -/
def RawMemory.Capacity (m : RawMemory α) : Nat := m.slots.length

/-- Models the `RawMemory(size_t capacity)` constructor: `Allocate`
reserves raw memory for `capacity` elements (a null buffer when
`capacity = 0`), constructing nothing. -/
def RawMemory.ofCapacity (n : Nat) : RawMemory α := ⟨List.replicate n none⟩

/-- Models `RawMemory::Swap`: exchanges buffer and capacity of the two
managers; returns `(new this, new other)`. -/
def RawMemory.swapOp (a b : RawMemory α) : RawMemory α × RawMemory α := (b, a)

/-- Models the move constructor `RawMemory(RawMemory&& other)`: `this` is
default-initialized (null buffer, capacity 0) and then swapped with
`other`; returns `(new this, other after the move)`. -/
def RawMemory.moveCtor (other : RawMemory α) : RawMemory α × RawMemory α :=
  RawMemory.swapOp ⟨[]⟩ other

/-- Models `RawMemory::operator=(RawMemory&& rhs)`: when `this != &rhs`
(`selfAlias = false`) the two managers are swapped; on self-assignment
nothing happens.  Returns `(new this, rhs after the move)`. -/
def RawMemory.moveAssign (lhs rhs : RawMemory α) (selfAlias : Bool) :
    RawMemory α × RawMemory α :=
  if selfAlias then (lhs, rhs) else RawMemory.swapOp lhs rhs

/-- Models `Vector<T>`: a raw storage block plus the count `size_` of
constructed elements. -/
structure Vector (α : Type) where
  data : RawMemory α
  size : Nat
  deriving DecidableEq, Repr

/-- `Vector::Capacity()`. -/
def Vector.capacity (v : Vector α) : Nat := v.data.Capacity

/-- The default constructor `Vector()`: no allocation, size 0. -/
def Vector.empty : Vector α := ⟨⟨[]⟩, 0⟩

/-- Models `Vector(size_t size)`: allocates capacity `size` and
value-constructs `size` elements. -/
def Vector.ofSize [Inhabited α] (n : Nat) : Vector α :=
  { data := ⟨valueConstructN (List.replicate n none) 0 n⟩, size := n }

/-- Models the copy constructor `Vector(const Vector&)`: allocates
capacity `other.Size()` and copy-constructs the elements. -/
def Vector.copyCtor (other : Vector α) : Vector α :=
  { data := ⟨(uninitializedCopyN other.data.slots 0 other.size
      (List.replicate other.size none) 0).1⟩,
    size := other.size }

/-- Models the move constructor `Vector(Vector&& rhs)`: `this` is
default-constructed and swapped with `rhs`; returns
`(new this, rhs after the move)`. -/
def Vector.moveCtor (rhs : Vector α) : Vector α × Vector α :=
  (rhs, Vector.empty)

/-- Models `Vector::Swap`: swaps storage and size; returns
`(new this, new other)`. -/
def Vector.swapOp (a b : Vector α) : Vector α × Vector α := (b, a)

/-- Models `Vector::MoveOrCopy(T* src, size_t n, T* dest)`.  The
compile-time type traits `std::is_nothrow_move_constructible_v<T>` and
`std::is_copy_constructible_v<T>` are the parameters `ntMove` and
`copyable`.  Returns the destination slots together with the number of
move-constructions and the number of copy-constructions performed. -/
def MoveOrCopy (ntMove copyable : Bool) (src : Slots α) (srcStart n : Nat)
    (dst : Slots α) (dstStart : Nat) : Slots α × Nat × Nat :=
  if ntMove || !copyable then
    let r := uninitializedMoveN src srcStart n dst dstStart
    (r.1, r.2, 0)
  else
    let r := uninitializedCopyN src srcStart n dst dstStart
    (r.1, 0, r.2)

/-- Models `Vector::MoveOrCopyAndSwap(RawMemory& data, size_t n, RawMemory& buf)`:
relocates `n` elements of `data` into `buf`, destroys the originals and
swaps the two blocks.  Returns `(data after the swap, buf after the swap)`;
the second component is the old block, which the caller deallocates. -/
def MoveOrCopyAndSwap (ntMove copyable : Bool) (data : RawMemory α) (n : Nat)
    (buf : RawMemory α) : RawMemory α × RawMemory α :=
  (⟨(MoveOrCopy ntMove copyable data.slots 0 n buf.slots 0).1⟩,
   ⟨destroyN data.slots 0 n⟩)

/-- Models `Vector::Reserve`. -/
def Vector.Reserve (ntMove copyable : Bool) (v : Vector α) (newCapacity : Nat) : Vector α :=
  if newCapacity ≤ v.capacity then v
  else
    { data := (MoveOrCopyAndSwap ntMove copyable v.data v.size
        (RawMemory.ofCapacity newCapacity)).1,
      size := v.size }

/-- Models `Vector::Resize`. -/
def Vector.Resize [Inhabited α] (ntMove copyable : Bool) (v : Vector α) (newSize : Nat) :
    Vector α :=
  if newSize = v.size then v
  else if newSize > v.size then
    let v' := if newSize > v.capacity then v.Reserve ntMove copyable newSize else v
    { data := ⟨valueConstructN v'.data.slots v.size (newSize - v.size)⟩, size := newSize }
  else
    { data := ⟨destroyN v.data.slots newSize (v.size - newSize)⟩, size := newSize }

/-- Models `Vector::EmplaceBack` (and therefore both `PushBack`
overloads) with the new element's value `x`.  At full capacity a fresh
block of `size_ == 0 ? 1 : size_ * 2` slots is allocated, the new element
is constructed into it first, and the old elements are relocated via
`MoveOrCopyAndSwap`; otherwise the element is constructed in place at
index `size_`. -/
def Vector.EmplaceBack (ntMove copyable : Bool) (v : Vector α) (x : α) : Vector α :=
  if v.size = v.capacity then
    let buffer : RawMemory α := RawMemory.ofCapacity (if v.size = 0 then 1 else v.size * 2)
    let buffer : RawMemory α := ⟨buffer.slots.set v.size (some x)⟩
    { data := (MoveOrCopyAndSwap ntMove copyable v.data v.size buffer).1,
      size := v.size + 1 }
  else
    { data := ⟨v.data.slots.set v.size (some x)⟩, size := v.size + 1 }

/-- `Vector::PushBack` (both overloads forward to `EmplaceBack`). -/
def Vector.PushBack (ntMove copyable : Bool) (v : Vector α) (x : α) : Vector α :=
  v.EmplaceBack ntMove copyable x

/-- Models `Vector::PopBack`: destroys the last element when the vector
is non-empty. -/
def Vector.PopBack (v : Vector α) : Vector α :=
  if v.size > 0 then
    { data := ⟨v.data.slots.set (v.size - 1) none⟩, size := v.size - 1 }
  else v

/-- Models `Vector::Emplace(pos, args)` at logical index `dist` with the
new element's value `x`; returns the resulting vector together with the
index (into the vector's then-current storage) of the returned iterator.
At full capacity the new element is constructed directly into its final
slot of a fresh block of `size_ == 0 ? 1 : size_ * 2` slots, the elements
before and after the split point are relocated around it, the old
elements are destroyed and the blocks swapped.  Without growth the
element is constructed in place at the end when `dist == size_`;
otherwise a temporary is built on the side, the last element is
move-constructed into the slot past the end, `[dist, size_-1)` is shifted
back one slot, the object at `dist` is destroyed, and the temporary is
move-assigned into that slot. -/
def Vector.Emplace (ntMove copyable : Bool) (v : Vector α) (dist : Nat) (x : α) :
    Vector α × Nat :=
  if v.size = v.capacity then
    let buffer : Slots α := List.replicate (if v.size = 0 then 1 else v.size * 2) none
    let buffer := buffer.set dist (some x)
    let buffer := (MoveOrCopy ntMove copyable v.data.slots 0 dist buffer 0).1
    let buffer := (MoveOrCopy ntMove copyable v.data.slots dist (v.size - dist)
      buffer (dist + 1)).1
    ({ data := ⟨buffer⟩, size := v.size + 1 }, dist)
  else if dist = v.size then
    ({ data := ⟨v.data.slots.set v.size (some x)⟩, size := v.size + 1 }, dist)
  else
    let s0 := v.data.slots
    let s1 := s0.set v.size (readSlot s0 (v.size - 1))
    let s2 := moveBackwardOne s1 dist (v.size - 1 - dist)
    let s3 := s2.set dist none
    let s4 := s3.set dist (some x)
    ({ data := ⟨s4⟩, size := v.size + 1 }, dist)

/-- `Vector::Insert` (both overloads forward to `Emplace`). -/
def Vector.Insert (ntMove copyable : Bool) (v : Vector α) (dist : Nat) (x : α) :
    Vector α × Nat :=
  v.Emplace ntMove copyable dist x

/-- Models `Vector::Erase(pos)` at logical index `dist`: destroys the
element at `dist`, then shifts `[dist+1, size_)` one slot toward the
front — by move assignment when
`is_nothrow_move_constructible_v<T> || !is_copy_constructible_v<T>`,
by copy assignment otherwise — and decrements the size.  Returns
`(resulting vector, returned iterator index, move assignments performed,
copy assignments performed)`. -/
def Vector.Erase (ntMove copyable : Bool) (v : Vector α) (dist : Nat) :
    Vector α × Nat × Nat × Nat :=
  let s := v.data.slots.set dist none
  if ntMove || !copyable then
    let r := shiftLeftOne s dist (v.size - 1 - dist)
    ({ data := ⟨r.1⟩, size := v.size - 1 }, dist, r.2, 0)
  else
    let r := shiftLeftOne s dist (v.size - 1 - dist)
    ({ data := ⟨r.1⟩, size := v.size - 1 }, dist, 0, r.2)

/-- Models `Vector::CopyToFilledVector(lhs, rhs)` (the reuse path of copy
assignment): `std::copy` of the whole of `rhs` onto `lhs`'s slots, then
copy-construction of `rhs`'s tail when `min_size == lhs_size`, then
destruction of `lhs`'s excess tail when `min_size == rhs_size` and the
sizes differ.  The second component is the number of assignments the
`std::copy` step made into uninitialized slots (per the source's
invariant this should be 0). -/
def Vector.CopyToFilledVector (lhs rhs : Vector α) : Vector α × Nat :=
  let minSize := min lhs.size rhs.size
  let r := stdCopy rhs.data.slots 0 rhs.size lhs.data.slots 0
  let s := r.1
  let s := if minSize = lhs.size then
      (uninitializedCopyN rhs.data.slots lhs.size (rhs.size - lhs.size) s lhs.size).1
    else s
  let s := if minSize = rhs.size ∧ rhs.size ≠ lhs.size then
      destroyN s rhs.size (lhs.size - rhs.size)
    else s
  ({ data := ⟨s⟩, size := rhs.size }, r.2)

/-- Models `Vector::operator=(const Vector& rhs)`.  `selfAlias` is the
result of the address comparison `this == &rhs` (which in the embedding
implies value equality of the two sides). -/
def Vector.copyAssign (lhs rhs : Vector α) (selfAlias : Bool) : Vector α :=
  if selfAlias then lhs
  else if rhs.size > lhs.capacity then Vector.copyCtor rhs
  else (Vector.CopyToFilledVector lhs rhs).1

/-- Models `Vector::operator=(Vector&& other)`: when `this != &other` the
two vectors are swapped.  Returns `(new this, other after the move)`. -/
def Vector.moveAssign (lhs rhs : Vector α) (selfAlias : Bool) : Vector α × Vector α :=
  if selfAlias then (lhs, rhs) else Vector.swapOp lhs rhs

/-- `Vector::EmplaceBack` called with the argument `(*this)[i]` — a
reference into the vector's own storage.  Mirrors the source's order of
operations: on the growth path the new element is constructed into the
fresh block, reading `data_[i]` while the old block is still intact, and
only then are the old elements relocated and destroyed. -/
def Vector.emplaceBackAliased (ntMove copyable : Bool) (v : Vector α) (i : Nat) : Vector α :=
  if v.size = v.capacity then
    let buffer : RawMemory α := RawMemory.ofCapacity (if v.size = 0 then 1 else v.size * 2)
    let buffer : RawMemory α := ⟨buffer.slots.set v.size (readSlot v.data.slots i)⟩
    { data := (MoveOrCopyAndSwap ntMove copyable v.data v.size buffer).1,
      size := v.size + 1 }
  else
    { data := ⟨v.data.slots.set v.size (readSlot v.data.slots i)⟩, size := v.size + 1 }

/-- The non-growing interior branch of `Vector::Emplace` called with the
argument `(*this)[i]`.  Mirrors the source's order of operations: the
temporary `T* temp = new T(args...)` is built first, reading `data_[i]`
before any element has been shifted. -/
def Vector.emplaceAliasedInterior (v : Vector α) (dist i : Nat) : Vector α × Nat :=
  let temp := readSlot v.data.slots i
  let s0 := v.data.slots
  let s1 := s0.set v.size (readSlot s0 (v.size - 1))
  let s2 := moveBackwardOne s1 dist (v.size - 1 - dist)
  let s3 := s2.set dist none
  let s4 := s3.set dist temp
  ({ data := ⟨s4⟩, size := v.size + 1 }, dist)

/-- One relocation step of `std::uninitialized_copy_n` /
`std::uninitialized_move_n` with a fault schedule: element constructions
happen in index order, and if `throwAt = some k` the construction of the
`k`-th element throws.  Per the C++ standard the algorithm then destroys
the elements it already constructed and lets the exception propagate:
the `Except.error` value is the destination block at that moment.
Arguments: remaining count, current source index, current destination
index, number already built, destination block. -/
def relocThrowGo (src : Slots α) (throwAt : Option Nat) :
    Nat → Nat → Nat → Nat → Slots α → Except (Slots α) (Slots α)
  | 0, _, _, _, dst => Except.ok dst
  | m + 1, srcI, dstI, built, dst =>
    if throwAt = some built then Except.error (destroyN dst (dstI - built) built)
    else relocThrowGo src throwAt m (srcI + 1) (dstI + 1) (built + 1)
      (dst.set dstI (readSlot src srcI))

/-- `std::uninitialized_copy_n / move_n` under the fault schedule
`throwAt`. -/
def uninitRelocThrow (src : Slots α) (srcStart n : Nat) (dst : Slots α) (dstStart : Nat)
    (throwAt : Option Nat) : Except (Slots α) (Slots α) :=
  relocThrowGo src throwAt n srcStart dstStart 0 dst

/-- `Vector::EmplaceBack` under a fault schedule: `newThrows` means the
constructor of the new element throws; `relocThrowAt = some k` means the
construction of the `k`-th relocated element (inside `MoveOrCopyAndSwap`,
whichever of `uninitialized_move_n` / `uninitialized_copy_n` runs)
throws.  On a throw the exception propagates out of `EmplaceBack`; the
local `RawMemory buffer` is deallocated without running any element
destructor.  `Except.error (v', leftover)` gives the vector as observed
by the caller at propagation together with the contents of the fresh
block at the moment of its deallocation (on the non-growth path there is
no fresh block and `leftover = []`). -/
def Vector.EmplaceBackThrow (v : Vector α) (x : α) (newThrows : Bool)
    (relocThrowAt : Option Nat) : Except (Vector α × Slots α) (Vector α) :=
  if v.size = v.capacity then
    let buffer : Slots α := List.replicate (if v.size = 0 then 1 else v.size * 2) none
    if newThrows then Except.error (v, buffer)
    else
      let buffer := buffer.set v.size (some x)
      match uninitRelocThrow v.data.slots 0 v.size buffer 0 relocThrowAt with
      | Except.error leftover => Except.error (v, leftover)
      | Except.ok buffer =>
        Except.ok { data := ⟨buffer⟩, size := v.size + 1 }
  else
    if newThrows then Except.error (v, [])
    else Except.ok { data := ⟨v.data.slots.set v.size (some x)⟩, size := v.size + 1 }

/-- The container invariant (§3 of the spec), phrased as a representation
relation: `xs` are the values of the constructed elements.  Slots
`[0, length)` hold constructed objects with exactly these values and all
other slots — `[length, capacity)` and out of range — read as
uninitialized. -/
def Vector.repOk (v : Vector α) (xs : List α) : Prop :=
  v.size = xs.length ∧ xs.length ≤ v.capacity ∧
    ∀ i, readSlot v.data.slots i = xs[i]?


/-- The vector `{10, 20}` built by two `PushBack`s: size 2, capacity 2. -/
def eraseDemoVec : Vector Nat :=
  Vector.EmplaceBack true true (Vector.EmplaceBack true true Vector.empty 10) 20

/-- The vector `{10}` built by one `PushBack`: size 1 at full capacity 1. -/
def relocThrowDemoVec : Vector Nat :=
  Vector.EmplaceBack true true Vector.empty 10

/-- The vector `{10}` with capacity 2: two `PushBack`s then a `PopBack`,
leaving slot 1 uninitialized. -/
def assignDemoLhs : Vector Nat :=
  Vector.PopBack
    (Vector.EmplaceBack false true (Vector.EmplaceBack false true Vector.empty 10) 20)

/-- The vector `{20, 30}` built by two `PushBack`s: size 2, capacity 2. -/
def assignDemoRhs : Vector Nat :=
  Vector.EmplaceBack false true (Vector.EmplaceBack false true Vector.empty 20) 30

/-- An empty vector that retains capacity 1: one `PushBack`, one `PopBack`. -/
def capDemoVec : Vector Nat :=
  Vector.PopBack (Vector.EmplaceBack true true Vector.empty 10)

theorem readSlot_nil (i : Nat) : readSlot ([] : Slots α) i = none := by
  cases i <;> rfl

theorem readSlot_set_self (s : Slots α) (i : Nat) (v : Option α) (h : i < s.length) :
    readSlot (s.set i v) i = v := by
  induction s generalizing i with
  | nil => simp at h
  | cons a t ih =>
    cases i with
    | zero => rfl
    | succ j => exact ih j (by simpa using h)

theorem readSlot_set_ne (s : Slots α) (i j : Nat) (v : Option α) (h : j ≠ i) :
    readSlot (s.set i v) j = readSlot s j := by
  induction s generalizing i j with
  | nil => simp [List.set]
  | cons a t ih =>
    cases i with
    | zero =>
      cases j with
      | zero => exact absurd rfl h
      | succ k => rfl
    | succ i' =>
      cases j with
      | zero => rfl
      | succ k => exact ih i' k (fun hk => h (by simp [hk]))

theorem readSlot_of_ge (s : Slots α) (i : Nat) (h : s.length ≤ i) :
    readSlot s i = none := by
  induction s generalizing i with
  | nil => exact readSlot_nil i
  | cons a t ih =>
    cases i with
    | zero => simp at h
    | succ j => exact ih j (by simpa using h)

theorem readSlot_replicate (n i : Nat) :
    readSlot (List.replicate n (none : Option α)) i = none := by
  induction n generalizing i with
  | zero => exact readSlot_nil i
  | succ m ih =>
    cases i with
    | zero => rfl
    | succ j => exact ih j

/-- Combined description of `readSlot` after `List.set`. -/
theorem readSlot_set (s : Slots α) (i j : Nat) (v : Option α) :
    readSlot (s.set i v) j =
      if j = i ∧ i < s.length then v else readSlot s j := by
  by_cases hj : j = i
  · subst hj
    by_cases hl : j < s.length
    · simp [hl, readSlot_set_self _ _ _ hl]
    · have h1 : readSlot (s.set j v) j = none :=
        readSlot_of_ge _ _ (by simp [List.length_set]; omega)
      have h2 : readSlot s j = none := readSlot_of_ge _ _ (by omega)
      simp [hl, h1, h2]
  · simp [hj, readSlot_set_ne s i j v hj]

theorem destroyN_length (s : Slots α) (start n : Nat) :
    (destroyN s start n).length = s.length := by
  induction n generalizing s start with
  | zero => rfl
  | succ m ih => simpa [destroyN] using (ih (s.set start none) (start + 1)).trans (by simp)

theorem readSlot_destroyN (s : Slots α) (start n i : Nat) :
    readSlot (destroyN s start n) i =
      if start ≤ i ∧ i < start + n then none else readSlot s i := by
  induction n generalizing s start with
  | zero =>
    rw [destroyN, if_neg (by omega)]
  | succ m ih =>
    rw [destroyN, ih]
    by_cases hin : start + 1 ≤ i ∧ i < start + 1 + m
    · have h2 : start ≤ i ∧ i < start + (m + 1) := by omega
      rw [if_pos hin, if_pos h2]
    · by_cases hi : start ≤ i ∧ i < start + (m + 1)
      · have heq : i = start := by omega
        subst heq
        rw [if_neg hin, if_pos hi, readSlot_set]
        by_cases hl : i < s.length
        · simp [hl]
        · simp [hl, readSlot_of_ge s i (by omega)]
      · rw [if_neg hin, if_neg hi, readSlot_set_ne s start i none (by omega)]

theorem valueConstructN_length [Inhabited α] (s : Slots α) (start n : Nat) :
    (valueConstructN s start n).length = s.length := by
  induction n generalizing s start with
  | zero => rfl
  | succ m ih =>
    simpa [valueConstructN] using (ih (s.set start (some default)) (start + 1)).trans (by simp)

theorem readSlot_valueConstructN [Inhabited α] (s : Slots α) (start n i : Nat)
    (hlen : start + n ≤ s.length) :
    readSlot (valueConstructN s start n) i =
      if start ≤ i ∧ i < start + n then some default else readSlot s i := by
  induction n generalizing s start with
  | zero => rw [valueConstructN, if_neg (by omega)]
  | succ m ih =>
    rw [valueConstructN, ih _ _ (by simp; omega)]
    by_cases hin : start + 1 ≤ i ∧ i < start + 1 + m
    · rw [if_pos hin, if_pos (by omega)]
    · by_cases hi : start ≤ i ∧ i < start + (m + 1)
      · have heq : i = start := by omega
        subst heq
        rw [if_neg hin, if_pos hi, readSlot_set_self s i _ (by omega)]
      · rw [if_neg hin, if_neg hi, readSlot_set_ne s start i _ (by omega)]

theorem uninitializedMoveN_eq_copyN (src : Slots α) (srcStart n : Nat) (dst : Slots α)
    (dstStart : Nat) :
    uninitializedMoveN src srcStart n dst dstStart =
      uninitializedCopyN src srcStart n dst dstStart := by
  induction n generalizing srcStart dst dstStart with
  | zero => rfl
  | succ m ih => simp [uninitializedMoveN, uninitializedCopyN, ih]

theorem uninitializedCopyN_length (src : Slots α) (srcStart n : Nat) (dst : Slots α)
    (dstStart : Nat) :
    (uninitializedCopyN src srcStart n dst dstStart).1.length = dst.length := by
  induction n generalizing srcStart dst dstStart with
  | zero => rfl
  | succ m ih =>
    simpa [uninitializedCopyN] using (ih (srcStart + 1) _ (dstStart + 1)).trans (by simp)

theorem uninitializedCopyN_count (src : Slots α) (srcStart n : Nat) (dst : Slots α)
    (dstStart : Nat) :
    (uninitializedCopyN src srcStart n dst dstStart).2 = n := by
  induction n generalizing srcStart dst dstStart with
  | zero => rfl
  | succ m ih => simp [uninitializedCopyN, ih]

theorem readSlot_uninitializedCopyN (src : Slots α) (srcStart n : Nat) (dst : Slots α)
    (dstStart i : Nat) (hlen : dstStart + n ≤ dst.length) :
    readSlot (uninitializedCopyN src srcStart n dst dstStart).1 i =
      if dstStart ≤ i ∧ i < dstStart + n then readSlot src (srcStart + (i - dstStart))
      else readSlot dst i := by
  induction n generalizing srcStart dst dstStart with
  | zero => rw [uninitializedCopyN, if_neg (by omega)]
  | succ m ih =>
    rw [uninitializedCopyN]
    simp only
    rw [ih _ _ _ (by simp; omega)]
    by_cases hin : dstStart + 1 ≤ i ∧ i < dstStart + 1 + m
    · rw [if_pos hin, if_pos (by omega)]
      congr 1
      omega
    · by_cases hi : dstStart ≤ i ∧ i < dstStart + (m + 1)
      · have heq : i = dstStart := by omega
        subst heq
        rw [if_neg hin, if_pos hi, readSlot_set_self dst i _ (by omega)]
        congr 1
        omega
      · rw [if_neg hin, if_neg hi, readSlot_set_ne dst dstStart i _ (by omega)]

theorem stdCopy_fst (src : Slots α) (srcStart n : Nat) (dst : Slots α) (dstStart : Nat) :
    (stdCopy src srcStart n dst dstStart).1 =
      (uninitializedCopyN src srcStart n dst dstStart).1 := by
  induction n generalizing srcStart dst dstStart with
  | zero => rfl
  | succ m ih => simp [stdCopy, uninitializedCopyN, ih]

theorem shiftLeftOne_length (s : Slots α) (first cnt : Nat) :
    (shiftLeftOne s first cnt).1.length = s.length := by
  induction cnt generalizing s first with
  | zero => rfl
  | succ c ih => simpa [shiftLeftOne] using (ih _ (first + 1)).trans (by simp)

theorem shiftLeftOne_count (s : Slots α) (first cnt : Nat) :
    (shiftLeftOne s first cnt).2 = cnt := by
  induction cnt generalizing s first with
  | zero => rfl
  | succ c ih => simp [shiftLeftOne, ih]

theorem readSlot_shiftLeftOne (s : Slots α) (first cnt i : Nat)
    (hlen : first + cnt ≤ s.length) :
    readSlot (shiftLeftOne s first cnt).1 i =
      if first ≤ i ∧ i < first + cnt then readSlot s (i + 1) else readSlot s i := by
  induction cnt generalizing s first with
  | zero => rw [shiftLeftOne, if_neg (by omega)]
  | succ c ih =>
    rw [shiftLeftOne]
    simp only
    rw [ih _ _ (by simp; omega)]
    by_cases hin : first + 1 ≤ i ∧ i < first + 1 + c
    · rw [if_pos hin, if_pos (by omega),
        readSlot_set_ne s first (i + 1) _ (by omega)]
    · by_cases hi : first ≤ i ∧ i < first + (c + 1)
      · have heq : i = first := by omega
        subst heq
        rw [if_neg hin, if_pos hi, readSlot_set_self s i _ (by omega)]
      · rw [if_neg hin, if_neg hi, readSlot_set_ne s first i _ (by omega)]

theorem moveBackwardOne_length (s : Slots α) (first cnt : Nat) :
    (moveBackwardOne s first cnt).length = s.length := by
  induction cnt generalizing s with
  | zero => rfl
  | succ c ih => simpa [moveBackwardOne] using (ih _).trans (by simp)

theorem readSlot_moveBackwardOne (s : Slots α) (first cnt i : Nat)
    (hlen : first + cnt < s.length) :
    readSlot (moveBackwardOne s first cnt) i =
      if first + 1 ≤ i ∧ i ≤ first + cnt then readSlot s (i - 1) else readSlot s i := by
  induction cnt generalizing s i with
  | zero => rw [moveBackwardOne, if_neg (by omega)]
  | succ c ih =>
    rw [moveBackwardOne, ih _ _ (by simp; omega)]
    by_cases hin : first + 1 ≤ i ∧ i ≤ first + c
    · rw [if_pos hin, if_pos (by omega),
        readSlot_set_ne s (first + c + 1) (i - 1) _ (by omega)]
    · by_cases hi : first + 1 ≤ i ∧ i ≤ first + (c + 1)
      · have heq : i = first + c + 1 := by omega
        subst heq
        rw [if_neg hin, if_pos hi, readSlot_set_self s _ _ (by omega)]
        congr 1
      · rw [if_neg hin, if_neg hi, readSlot_set_ne s (first + c + 1) i _ (by omega)]

theorem readSlot_canonical (xs : List α) (k i : Nat) :
    readSlot (xs.map some ++ List.replicate k none) i = xs[i]? := by
  induction xs generalizing i with
  | nil => simpa using readSlot_replicate k i
  | cons a t ih =>
    cases i with
    | zero => simp [readSlot]
    | succ j => simpa [readSlot] using ih j

/-- A vector whose block is literally `constructed prefix ++ raw tail`
satisfies the representation relation; used to build concrete witnesses. -/
theorem repOk_canonical (xs : List α) (k : Nat) :
    (Vector.mk ⟨xs.map some ++ List.replicate k none⟩ xs.length).repOk xs := by
  refine ⟨rfl, ?_, readSlot_canonical xs k⟩
  simp [Vector.capacity, RawMemory.Capacity]

theorem getElem?_insertIdx (n : Nat) (a : α) (l : List α) (h : n ≤ l.length) (i : Nat) :
    (List.insertIdx n a l)[i]? =
      if i < n then l[i]? else if i = n then some a else l[i - 1]? := by
  induction n generalizing l i with
  | zero =>
    rw [List.insertIdx_zero]
    cases i with
    | zero => simp
    | succ j => simp
  | succ m ih =>
    cases l with
    | nil => simp at h
    | cons hd tl =>
      rw [List.insertIdx_succ_cons]
      cases i with
      | zero => simp
      | succ j =>
        rw [List.getElem?_cons_succ, ih tl (by simpa using h) j]
        by_cases h1 : j < m
        · simp [h1]
        · by_cases h2 : j = m
          · simp [h1, h2]
          · have h3 : ¬(j + 1 = m + 1) := by omega
            simp only [if_neg h1, if_neg h2, if_neg h3,
              if_neg (show ¬(j + 1 < m + 1) by omega), Nat.add_sub_cancel]
            cases j with
            | zero => omega
            | succ j' => simp

theorem uninitializedMoveN_count (src : Slots α) (srcStart n : Nat) (dst : Slots α)
    (dstStart : Nat) :
    (uninitializedMoveN src srcStart n dst dstStart).2 = n := by
  rw [uninitializedMoveN_eq_copyN]
  exact uninitializedCopyN_count src srcStart n dst dstStart

theorem MoveOrCopy_fst (ntMove copyable : Bool) (src : Slots α) (srcStart n : Nat)
    (dst : Slots α) (dstStart : Nat) :
    (MoveOrCopy ntMove copyable src srcStart n dst dstStart).1 =
      (uninitializedCopyN src srcStart n dst dstStart).1 := by
  unfold MoveOrCopy
  by_cases h : ntMove || !copyable
  · simp [h, uninitializedMoveN_eq_copyN]
  · simp [h]

theorem MoveOrCopy_fst_length (ntMove copyable : Bool) (src : Slots α) (srcStart n : Nat)
    (dst : Slots α) (dstStart : Nat) :
    (MoveOrCopy ntMove copyable src srcStart n dst dstStart).1.length = dst.length := by
  rw [MoveOrCopy_fst]
  exact uninitializedCopyN_length src srcStart n dst dstStart

theorem getElem?_replicate' (d : α) (k i : Nat) :
    (List.replicate k d)[i]? = if i < k then some d else none := by
  induction k generalizing i with
  | zero => simp
  | succ m ih =>
    cases i with
    | zero => simp
    | succ j =>
      rw [List.replicate_succ, List.getElem?_cons_succ, ih j]
      by_cases h : j < m
      · rw [if_pos h, if_pos (by omega)]
      · rw [if_neg h, if_neg (by omega)]

theorem getElem?_append_replicate (xs : List α) (d : α) (k i : Nat) :
    (xs ++ List.replicate k d)[i]? =
      if i < xs.length then xs[i]? else if i < xs.length + k then some d else none := by
  induction xs generalizing i with
  | nil =>
    rw [List.nil_append, getElem?_replicate' d k i]
    simp
  | cons a t ih =>
    cases i with
    | zero => simp
    | succ j =>
      rw [List.cons_append, List.getElem?_cons_succ, ih j]
      simp only [List.length_cons, List.getElem?_cons_succ]
      by_cases h1 : j < t.length
      · rw [if_pos h1, if_pos (show j + 1 < t.length + 1 by omega)]
      · rw [if_neg h1, if_neg (show ¬(j + 1 < t.length + 1) by omega)]
        by_cases h2 : j < t.length + k
        · rw [if_pos h2, if_pos (show j + 1 < t.length + 1 + k by omega)]
        · rw [if_neg h2, if_neg (show ¬(j + 1 < t.length + 1 + k) by omega)]

theorem getElem?_take' (xs : List α) (n i : Nat) :
    (xs.take n)[i]? = if i < n then xs[i]? else none := by
  induction xs generalizing n i with
  | nil =>
    simp only [List.take_nil]
    by_cases h : i < n <;> simp [h]
  | cons a t ih =>
    cases n with
    | zero => simp
    | succ m =>
      rw [List.take_succ_cons]
      cases i with
      | zero => simp
      | succ j =>
        rw [List.getElem?_cons_succ, ih m j]
        by_cases h : j < m
        · rw [if_pos h, if_pos (by omega), List.getElem?_cons_succ]
        · rw [if_neg h, if_neg (by omega)]

theorem EmplaceBack_capacity (ntMove copyable : Bool) (v : Vector α) (x : α) :
    (v.EmplaceBack ntMove copyable x).capacity =
      if v.size = v.capacity then (if v.size = 0 then 1 else v.size * 2) else v.capacity := by
  simp only [Vector.EmplaceBack, Vector.capacity, RawMemory.Capacity]
  by_cases h : v.size = v.data.slots.length
  · simp only [if_pos h]
    simp [MoveOrCopyAndSwap, MoveOrCopy_fst_length, RawMemory.ofCapacity]
  · simp only [if_neg h]
    simp

theorem Emplace_capacity (ntMove copyable : Bool) (v : Vector α) (dist : Nat) (x : α) :
    (v.Emplace ntMove copyable dist x).1.capacity =
      if v.size = v.capacity then (if v.size = 0 then 1 else v.size * 2) else v.capacity := by
  simp only [Vector.Emplace, Vector.capacity, RawMemory.Capacity]
  by_cases h : v.size = v.data.slots.length
  · simp only [if_pos h]
    simp [MoveOrCopy_fst_length]
  · simp only [if_neg h]
    by_cases h2 : dist = v.size
    · simp [h2]
    · simp [h2, moveBackwardOne_length]

theorem Reserve_capacity (ntMove copyable : Bool) (v : Vector α) (n : Nat) :
    (v.Reserve ntMove copyable n).capacity =
      if n ≤ v.capacity then v.capacity else n := by
  simp only [Vector.Reserve, Vector.capacity, RawMemory.Capacity]
  by_cases h : n ≤ v.data.slots.length
  · rw [if_pos h, if_pos h]
  · rw [if_neg h, if_neg h]
    simp [MoveOrCopyAndSwap, MoveOrCopy_fst_length, RawMemory.ofCapacity]

theorem Resize_capacity [Inhabited α] (ntMove copyable : Bool) (v : Vector α) (n : Nat) :
    (v.Resize ntMove copyable n).capacity =
      if v.size < n ∧ v.capacity < n then n else v.capacity := by
  simp only [Vector.Resize, Vector.capacity, RawMemory.Capacity, gt_iff_lt]
  by_cases h1 : n = v.size
  · rw [if_pos h1, if_neg (by omega)]
  · rw [if_neg h1]
    by_cases h2 : v.size < n
    · rw [if_pos h2]
      by_cases h3 : v.data.slots.length < n
      · rw [if_pos h3]
        have hres : (Vector.Reserve ntMove copyable v n).data.slots.length = n := by
          simp only [Vector.Reserve, Vector.capacity, RawMemory.Capacity]
          rw [if_neg (by omega)]
          simp [MoveOrCopyAndSwap, MoveOrCopy_fst_length, RawMemory.ofCapacity]
        simp only [valueConstructN_length, hres]
        rw [if_pos ⟨h2, h3⟩]
      · rw [if_neg h3]
        simp only [valueConstructN_length]
        rw [if_neg (by omega)]
    · rw [if_neg h2]
      simp only [destroyN_length]
      rw [if_neg (by omega)]

theorem PopBack_capacity (v : Vector α) : (v.PopBack).capacity = v.capacity := by
  simp only [Vector.PopBack, Vector.capacity, RawMemory.Capacity]
  by_cases h : v.size > 0
  · simp [h]
  · simp [h]

theorem Erase_capacity (ntMove copyable : Bool) (v : Vector α) (dist : Nat) :
    (v.Erase ntMove copyable dist).1.capacity = v.capacity := by
  simp only [Vector.Erase, Vector.capacity, RawMemory.Capacity]
  by_cases h : ntMove || !copyable
  · simp [h, shiftLeftOne_length]
  · simp [h, shiftLeftOne_length]

theorem copyCtor_capacity (other : Vector α) :
    (Vector.copyCtor other).capacity = other.size := by
  simp [Vector.copyCtor, Vector.capacity, RawMemory.Capacity, uninitializedCopyN_length]

theorem CopyToFilledVector_capacity (lhs rhs : Vector α) :
    (Vector.CopyToFilledVector lhs rhs).1.capacity = lhs.capacity := by
  simp only [Vector.CopyToFilledVector, Vector.capacity, RawMemory.Capacity]
  split <;> split <;>
    simp [destroyN_length, uninitializedCopyN_length, stdCopy_fst]

/-- Claim C1: the spec's invariant — slots `[0, length)` constructed,
slots `[length, capacity)` uninitialized at every observable point, and in
particular the slot at index `n-1` uninitialized after `Erase` on a vector
of length `n` — is violated by the code: `Vector::Erase` never destroys
the last element after shifting, so on `{10, 20}` an `Erase` at the front
leaves the new one-past-end slot (index 1) holding a constructed
(moved-from) object whose destructor will never run. -/
theorem erase_leaves_constructed_slot_at_new_end :
    eraseDemoVec.size = 2 ∧ eraseDemoVec.capacity = 2 ∧
    readSlot eraseDemoVec.data.slots 0 = some 10 ∧
    readSlot eraseDemoVec.data.slots 1 = some 20 ∧
    (eraseDemoVec.Erase true true 0).1.size = 1 ∧
    readSlot (eraseDemoVec.Erase true true 0).1.data.slots 1 = some 20 := by
  decide

/-- Claim C2: the growth path of `EmplaceBack` constructs the new element
in the fresh block before relocating, but if a construction inside the
relocation throws, only the relocation algorithm's own partial prefix is
unwound: the already-constructed new element at index `size_` of the
fresh block is never destroyed before the block is deallocated.  On the
full one-element vector `{10}`, with the relocation of element 0
throwing, the exception propagates while the fresh block still holds a
constructed element at index 1 (the original vector is unchanged). -/
theorem emplaceBack_reloc_throw_leaves_constructed_element :
    relocThrowDemoVec.size = 1 ∧ relocThrowDemoVec.capacity = 1 ∧
    Vector.EmplaceBackThrow relocThrowDemoVec 20 false (some 0) =
      Except.error (relocThrowDemoVec, [none, some 20]) ∧
    readSlot [(none : Option Nat), some 20] 1 = some 20 := by
  exact ⟨by decide, by decide, rfl, rfl⟩

/-- Claim C3: every relocation (`MoveOrCopy`, called by `Reserve` and the
growth paths of `EmplaceBack` / `Emplace` via `MoveOrCopyAndSwap`) and
the `Erase` shift perform move operations exactly when
`is_nothrow_move_constructible_v<T> || !is_copy_constructible_v<T>`, and
copy operations in all other cases — stated by counting the move and copy
operations each performs. -/
theorem relocation_and_erase_dispatch (ntMove copyable : Bool) (src dst : Slots Nat)
    (srcStart n dstStart : Nat) (v : Vector Nat) (i : Nat) :
    ((MoveOrCopy ntMove copyable src srcStart n dst dstStart).2 =
      if ntMove || !copyable then (n, 0) else (0, n)) ∧
    ((v.Erase ntMove copyable i).2.2 =
      if ntMove || !copyable then (v.size - 1 - i, 0) else (0, v.size - 1 - i)) := by
  constructor
  · by_cases h : ntMove || !copyable
    · simp [MoveOrCopy, h, uninitializedMoveN_count]
    · simp [MoveOrCopy, h, uninitializedCopyN_count]
  · by_cases h : ntMove || !copyable
    · simp [Vector.Erase, h, shiftLeftOne_count]
    · simp [Vector.Erase, h, shiftLeftOne_count]

/-- Claim C4: copy assignment on the reuse path is claimed to assign only
the overlapping prefix of `min(lhs.size, rhs.size)` elements and to
copy-construct the rest into uninitialized slots.  The code instead runs
`std::copy(rhs.begin(), rhs.end(), lhs.begin())` over the whole source
range: assigning `{20, 30}` to the one-element vector `{10}` (capacity 2)
performs 1 assignment whose target slot was uninitialized raw memory
(index 1), before copy-constructing over that same slot. -/
theorem copy_assign_assigns_into_uninitialized_tail :
    assignDemoLhs.size = 1 ∧ assignDemoLhs.capacity = 2 ∧
    assignDemoRhs.size = 2 ∧
    ¬(assignDemoRhs.size > assignDemoLhs.capacity) ∧
    (Vector.CopyToFilledVector assignDemoLhs assignDemoRhs).2 = 1 ∧
    Vector.copyAssign assignDemoLhs assignDemoRhs false =
      (Vector.CopyToFilledVector assignDemoLhs assignDemoRhs).1 ∧
    (Vector.copyAssign assignDemoLhs assignDemoRhs false).size = 2 := by
  decide

/-- Claim C5 (counterexample): `RawMemory`'s move assignment is claimed to
leave the source with capacity 0 and no block; but the code swaps, so
moving a capacity-2 manager into a capacity-1 manager leaves the source
with the destination's former capacity 1 ≠ 0. -/
theorem rawMemory_move_assign_source_not_emptied :
    ((RawMemory.moveAssign (RawMemory.ofCapacity 1 : RawMemory Nat)
        (RawMemory.ofCapacity 2) false).2).Capacity ≠ 0 := by
  decide

/-- Claim C5 (amended): move construction transfers the block and
capacity and leaves the source empty (capacity 0, no block); move
assignment transfers the block and capacity to the destination by a swap,
leaving the source holding the destination's former block — so the source
ends empty only when the destination was empty. -/
theorem rawMemory_move_transfer (a b : RawMemory Nat) :
    RawMemory.moveCtor b = (b, (⟨[]⟩ : RawMemory Nat)) ∧
    ((⟨[]⟩ : RawMemory Nat) : RawMemory Nat).Capacity = 0 ∧
    RawMemory.moveAssign a b false = (b, a) :=
  ⟨rfl, rfl, rfl⟩

/-- Claim C7 (counterexample): capacity is claimed never to decrease
under any operation, but move assignment swaps storage: moving an empty
default-constructed vector into a capacity-1 vector leaves the latter
with capacity 0 < 1. -/
theorem capacity_decreases_on_move_assign :
    (Vector.moveAssign capDemoVec Vector.empty false).1.capacity < capDemoVec.capacity := by
  decide

/-- Claim C9: self-assignment — copy assignment `v = v` and move
assignment `v = move(v)` with `this == &rhs` — leaves the vector's
storage, capacity and size unchanged (both operators test the address
equality first and do nothing). -/
theorem self_assignment_noop (v : Vector Nat) :
    Vector.copyAssign v v true = v ∧ Vector.moveAssign v v true = (v, v) :=
  ⟨rfl, rfl⟩

/-- Claim C7 (amended): a growing `PushBack`/`EmplaceBack` or `Emplace`
allocates a new block of capacity `max(1, 2×length)` — capacity 0 grows
to 1, otherwise capacity doubles — and capacity never decreases under any
operation on a vector's own storage (`PushBack`/`EmplaceBack`, `Emplace`,
`Reserve`, `Resize`, `PopBack`, `Erase`, copy assignment); it can
decrease only under the operations that exchange or transfer whole
storage blocks between two vectors (`Swap`, move construction of the
source, move assignment). -/
theorem growth_policy_capacity (ntMove copyable : Bool) (v w : Vector Nat)
    (x n dist i : Nat) :
    ((v.EmplaceBack ntMove copyable x).capacity =
      if v.size = v.capacity then max 1 (2 * v.size) else v.capacity) ∧
    ((v.Emplace ntMove copyable dist x).1.capacity =
      if v.size = v.capacity then max 1 (2 * v.size) else v.capacity) ∧
    v.capacity ≤ (v.EmplaceBack ntMove copyable x).capacity ∧
    v.capacity ≤ (v.Emplace ntMove copyable dist x).1.capacity ∧
    v.capacity ≤ (v.Reserve ntMove copyable n).capacity ∧
    v.capacity ≤ (v.Resize ntMove copyable n).capacity ∧
    (v.PopBack).capacity = v.capacity ∧
    (v.Erase ntMove copyable i).1.capacity = v.capacity ∧
    v.capacity ≤ (v.copyAssign w false).capacity ∧
    (v.copyAssign w true).capacity = v.capacity := by
  have hmax : (if v.size = 0 then 1 else v.size * 2) = max 1 (2 * v.size) := by
    by_cases h0 : v.size = 0
    · simp [h0]
    · rw [if_neg h0]
      omega
  have hle : v.capacity ≤ if v.size = v.capacity then max 1 (2 * v.size) else v.capacity := by
    by_cases h : v.size = v.capacity
    · rw [if_pos h]
      omega
    · rw [if_neg h]
  refine ⟨?_, ?_, ?_, ?_, ?_, ?_, PopBack_capacity v,
    Erase_capacity ntMove copyable v i, ?_, ?_⟩
  · rw [EmplaceBack_capacity, hmax]
  · rw [Emplace_capacity, hmax]
  · rw [EmplaceBack_capacity, hmax]
    exact hle
  · rw [Emplace_capacity, hmax]
    exact hle
  · rw [Reserve_capacity]
    by_cases h : n ≤ v.capacity
    · rw [if_pos h]
    · rw [if_neg h]
      omega
  · rw [Resize_capacity]
    by_cases h : v.size < n ∧ v.capacity < n
    · rw [if_pos h]
      omega
    · rw [if_neg h]
  · simp only [Vector.copyAssign, Bool.false_eq_true, if_false]
    by_cases h : w.size > v.capacity
    · rw [if_pos h, copyCtor_capacity]
      omega
    · rw [if_neg h, CopyToFilledVector_capacity]
  · simp [Vector.copyAssign]

theorem getElem?_none_of_le (xs : List α) (i : Nat) (h : xs.length ≤ i) : xs[i]? = none := by
  induction xs generalizing i with
  | nil => simp
  | cons a t ih =>
    cases i with
    | zero => simp at h
    | succ j =>
      rw [List.getElem?_cons_succ]
      exact ih j (by simpa using h)

theorem Reserve_read (ntMove copyable : Bool) (v : Vector Nat) (xs : List Nat)
    (hrep : v.repOk xs) (n i : Nat) :
    readSlot (v.Reserve ntMove copyable n).data.slots i = xs[i]? := by
  obtain ⟨hsz, hcap, hread⟩ := hrep
  have hcapd : v.capacity = v.data.slots.length := rfl
  unfold Vector.Reserve
  by_cases h : n ≤ v.capacity
  · rw [if_pos h]
    exact hread i
  · rw [if_neg h]
    simp only [MoveOrCopyAndSwap, MoveOrCopy_fst, RawMemory.ofCapacity]
    rw [readSlot_uninitializedCopyN _ _ _ _ _ _
      (by simp only [List.length_replicate]; omega)]
    by_cases hi : 0 ≤ i ∧ i < 0 + v.size
    · rw [if_pos hi, show (0 + (i - 0)) = i by omega]
      exact hread i
    · rw [if_neg hi, readSlot_replicate]
      rw [getElem?_none_of_le xs i (by omega)]

/-- Claim C8: for a vector holding values `xs`, `Resize n` is the
identity when `n = length`; when `n > length` it keeps the first `length`
values, value-constructs exactly `n - length` zero tail elements
(reserving capacity `n` first when `n` exceeds the capacity), and sets
the length to `n`; when `n < length` it keeps the first `n` values,
destroys exactly the trailing `length - n` elements and leaves the
capacity unchanged. -/
theorem resize_spec (ntMove copyable : Bool) (v : Vector Nat) (xs : List Nat) (n : Nat)
    (hrep : v.repOk xs) :
    (n = xs.length → v.Resize ntMove copyable n = v) ∧
    (xs.length < n →
      (v.Resize ntMove copyable n).repOk (xs ++ List.replicate (n - xs.length) 0) ∧
      (v.Resize ntMove copyable n).capacity =
        if n ≤ v.capacity then v.capacity else n) ∧
    (n < xs.length →
      (v.Resize ntMove copyable n).repOk (xs.take n) ∧
      (v.Resize ntMove copyable n).capacity = v.capacity) := by
  obtain ⟨hsz, hcap, hread⟩ := hrep
  refine ⟨?_, ?_, ?_⟩
  · intro h
    unfold Vector.Resize
    rw [if_pos (h.trans hsz.symm)]
  · intro h
    have hcapEq : (v.Resize ntMove copyable n).capacity =
        if n ≤ v.capacity then v.capacity else n := by
      rw [Resize_capacity]
      by_cases hc : n ≤ v.capacity
      · rw [if_neg (by omega), if_pos hc]
      · rw [if_pos (by omega), if_neg hc]
    refine ⟨⟨?_, ?_, ?_⟩, hcapEq⟩
    · show (v.Resize ntMove copyable n).size = _
      unfold Vector.Resize
      rw [if_neg (by omega), if_pos (by omega)]
      simp
      omega
    · show _ ≤ (v.Resize ntMove copyable n).capacity
      rw [hcapEq]
      simp only [List.length_append, List.length_replicate]
      by_cases hc : n ≤ v.capacity
      · rw [if_pos hc]
        omega
      · rw [if_neg hc]
        omega
    · intro i
      unfold Vector.Resize
      rw [if_neg (by omega), if_pos (by omega)]
      simp only
      have hv'len : n ≤ (if n > v.capacity then v.Reserve ntMove copyable n
          else v).data.slots.length := by
        by_cases hc : n > v.capacity
        · rw [if_pos hc]
          have := Reserve_capacity ntMove copyable v n
          rw [if_neg (by omega)] at this
          simp only [Vector.capacity, RawMemory.Capacity] at this
          omega
        · rw [if_neg hc]
          have hcap2 : xs.length ≤ v.data.slots.length := hcap
          have hc2 : ¬n > v.data.slots.length := hc
          omega
      have hv'read : ∀ j, readSlot (if n > v.capacity then v.Reserve ntMove copyable n
          else v).data.slots j = xs[j]? := by
        intro j
        by_cases hc : n > v.capacity
        · rw [if_pos hc]
          exact Reserve_read ntMove copyable v xs ⟨hsz, hcap, hread⟩ n j
        · rw [if_neg hc]
          exact hread j
      rw [readSlot_valueConstructN _ _ _ _ (by omega), getElem?_append_replicate]
      by_cases h1 : i < xs.length
      · rw [if_neg (show ¬(v.size ≤ i ∧ i < v.size + (n - v.size)) by omega), if_pos h1]
        exact hv'read i
      · by_cases h2 : i < n
        · rw [if_pos (show v.size ≤ i ∧ i < v.size + (n - v.size) by omega), if_neg h1,
            if_pos (show i < xs.length + (n - xs.length) by omega)]
          exact rfl
        · rw [if_neg (show ¬(v.size ≤ i ∧ i < v.size + (n - v.size)) by omega), if_neg h1,
            if_neg (show ¬(i < xs.length + (n - xs.length)) by omega)]
          rw [hv'read i, getElem?_none_of_le xs i (by omega)]
  · intro h
    have hcapEq : (v.Resize ntMove copyable n).capacity = v.capacity := by
      rw [Resize_capacity, if_neg (by omega)]
    refine ⟨⟨?_, ?_, ?_⟩, hcapEq⟩
    · show (v.Resize ntMove copyable n).size = _
      unfold Vector.Resize
      rw [if_neg (by omega), if_neg (by omega)]
      simp [List.length_take]
      omega
    · show _ ≤ (v.Resize ntMove copyable n).capacity
      rw [hcapEq]
      simp only [List.length_take]
      omega
    · intro i
      unfold Vector.Resize
      rw [if_neg (by omega), if_neg (by omega)]
      simp only
      rw [readSlot_destroyN, getElem?_take']
      by_cases h1 : i < n
      · rw [if_neg (show ¬(n ≤ i ∧ i < n + (v.size - n)) by omega), if_pos h1]
        exact hread i
      · rw [if_neg h1]
        by_cases h2 : i < v.size
        · rw [if_pos (show n ≤ i ∧ i < n + (v.size - n) by omega)]
        · rw [if_neg (show ¬(n ≤ i ∧ i < n + (v.size - n)) by omega)]
          rw [hread i, getElem?_none_of_le xs i (by omega)]

/-- Claim C6: for a vector holding values `xs` and any position
`dist ≤ length`, `Emplace` (and `Insert`, which forwards to it) places
`x` at logical index `dist`, preserves the relative order of all other
elements (the values become `xs.insertIdx dist x`), increases the length
by 1, and returns an iterator to the inserted element in the vector's
current storage (index `dist`, where the new value resides). -/
theorem emplace_insert_spec (ntMove copyable : Bool) (v : Vector Nat) (xs : List Nat)
    (dist : Nat) (x : Nat) (hrep : v.repOk xs) (hdist : dist ≤ xs.length) :
    (v.Emplace ntMove copyable dist x).1.repOk (xs.insertIdx dist x) ∧
    (v.Emplace ntMove copyable dist x).1.size = xs.length + 1 ∧
    (v.Emplace ntMove copyable dist x).2 = dist ∧
    readSlot (v.Emplace ntMove copyable dist x).1.data.slots dist = some x ∧
    v.Insert ntMove copyable dist x = v.Emplace ntMove copyable dist x := by
  obtain ⟨hsz, hcap, hread⟩ := hrep
  have hcapd : v.capacity = v.data.slots.length := rfl
  have hsize : (v.Emplace ntMove copyable dist x).1.size = v.size + 1 := by
    unfold Vector.Emplace
    by_cases hfull : v.size = v.capacity
    · rw [if_pos hfull]
    · rw [if_neg hfull]
      by_cases hde : dist = v.size
      · rw [if_pos hde]
      · rw [if_neg hde]
  have hidx : (v.Emplace ntMove copyable dist x).2 = dist := by
    unfold Vector.Emplace
    by_cases hfull : v.size = v.capacity
    · rw [if_pos hfull]
    · rw [if_neg hfull]
      by_cases hde : dist = v.size
      · rw [if_pos hde]
      · rw [if_neg hde]
  have hcap' : v.size + 1 ≤ (v.Emplace ntMove copyable dist x).1.capacity := by
    rw [Emplace_capacity]
    by_cases hfull : v.size = v.capacity
    · rw [if_pos hfull]
      by_cases h0 : v.size = 0
      · rw [if_pos h0]
        omega
      · rw [if_neg h0]
        omega
    · rw [if_neg hfull]
      omega
  have hpt : ∀ i, readSlot (v.Emplace ntMove copyable dist x).1.data.slots i =
      if i < dist then xs[i]? else if i = dist then some x else xs[i - 1]? := by
    intro i
    unfold Vector.Emplace
    by_cases hfull : v.size = v.capacity
    · rw [if_pos hfull]
      simp only [MoveOrCopy_fst]
      set K := if v.size = 0 then 1 else v.size * 2 with hKdef
      have hK : v.size + 1 ≤ K := by
        by_cases h0 : v.size = 0
        · simp [hKdef, h0]
        · rw [hKdef, if_neg h0]
          omega
      rw [readSlot_uninitializedCopyN _ _ _ _ _ _
        (by rw [uninitializedCopyN_length]; simp only [List.length_set,
          List.length_replicate]; omega)]
      rw [readSlot_uninitializedCopyN _ _ _ _ _ _
        (by simp only [List.length_set, List.length_replicate]; omega)]
      rw [readSlot_set]
      simp only [List.length_replicate]
      by_cases h1 : i < dist
      · rw [if_neg (show ¬(dist + 1 ≤ i ∧ i < dist + 1 + (v.size - dist)) by omega),
          if_pos (show 0 ≤ i ∧ i < 0 + dist by omega),
          (by omega : 0 + (i - 0) = i), hread i, if_pos h1]
      · by_cases h2 : i = dist
        · subst h2
          rw [if_neg (show ¬(i + 1 ≤ i ∧ i < i + 1 + (v.size - i)) by omega),
            if_neg (show ¬(0 ≤ i ∧ i < 0 + i) by omega),
            if_pos (show i = i ∧ i < K by omega),
            if_neg (lt_irrefl i), if_pos rfl]
        · by_cases h3 : i ≤ v.size
          · rw [if_pos (show dist + 1 ≤ i ∧ i < dist + 1 + (v.size - dist) by omega),
              (by omega : dist + (i - (dist + 1)) = i - 1), hread (i - 1),
              if_neg h1, if_neg h2]
          · rw [if_neg (show ¬(dist + 1 ≤ i ∧ i < dist + 1 + (v.size - dist)) by omega),
              if_neg (show ¬(0 ≤ i ∧ i < 0 + dist) by omega),
              if_neg (show ¬(i = dist ∧ dist < K) by omega), readSlot_replicate,
              if_neg h1, if_neg h2, getElem?_none_of_le xs (i - 1) (by omega)]
    · rw [if_neg hfull]
      have hlt : v.size < v.data.slots.length := by omega
      by_cases hde : dist = v.size
      · rw [if_pos hde]
        simp only
        rw [readSlot_set]
        by_cases h1 : i = dist
        · subst h1
          rw [if_pos (show i = v.size ∧ v.size < v.data.slots.length by omega),
            if_neg (lt_irrefl i), if_pos rfl]
        · rw [if_neg (show ¬(i = v.size ∧ v.size < v.data.slots.length) by omega),
            hread i]
          by_cases h2 : i < dist
          · rw [if_pos h2]
          · rw [if_neg h2, if_neg h1,
              getElem?_none_of_le xs i (by omega),
              getElem?_none_of_le xs (i - 1) (by omega)]
      · rw [if_neg hde]
        simp only
        have hdlt : dist < v.size := by omega
        rw [readSlot_set, readSlot_set,
          readSlot_moveBackwardOne _ _ _ _
            (by simp only [List.length_set]; omega)]
        simp only [readSlot_set, List.length_set, moveBackwardOne_length, hread]
        by_cases h1 : i = dist
        · subst h1
          rw [if_pos (show i = i ∧ i < v.data.slots.length by omega),
            if_neg (lt_irrefl i), if_pos rfl]
        · rw [if_neg (show ¬(i = dist ∧ dist < v.data.slots.length) by omega),
            if_neg (show ¬(i = dist ∧ dist < v.data.slots.length) by omega)]
          by_cases h2 : i < dist
          · rw [if_neg (show ¬(dist + 1 ≤ i ∧ i ≤ dist + (v.size - 1 - dist)) by omega),
              if_neg (show ¬(i = v.size ∧ v.size < v.data.slots.length) by omega),
              if_pos h2]
          · by_cases h3 : i ≤ v.size - 1
            · rw [if_pos (show dist + 1 ≤ i ∧ i ≤ dist + (v.size - 1 - dist) by omega),
                if_neg (show ¬(i - 1 = v.size ∧ v.size < v.data.slots.length) by omega),
                if_neg h2, if_neg h1]
            · by_cases h4 : i = v.size
              · rw [if_neg (show ¬(dist + 1 ≤ i ∧ i ≤ dist + (v.size - 1 - dist)) by omega),
                  if_pos (show i = v.size ∧ v.size < v.data.slots.length by omega),
                  if_neg h2, if_neg h1, (by omega : i - 1 = v.size - 1)]
              · rw [if_neg (show ¬(dist + 1 ≤ i ∧ i ≤ dist + (v.size - 1 - dist)) by omega),
                  if_neg (show ¬(i = v.size ∧ v.size < v.data.slots.length) by omega),
                  if_neg h2, if_neg h1,
                  getElem?_none_of_le xs i (by omega),
                  getElem?_none_of_le xs (i - 1) (by omega)]
  have hlen : (xs.insertIdx dist x).length = xs.length + 1 :=
    List.length_insertIdx dist xs hdist
  refine ⟨⟨?_, ?_, ?_⟩, ?_, hidx, ?_, rfl⟩
  · rw [hsize, hlen, hsz]
  · rw [hlen]
    have := hcap'
    omega
  · intro i
    rw [hpt i, getElem?_insertIdx dist x xs hdist i]
  · rw [hsize, hsz]
  · rw [hpt dist, if_neg (lt_irrefl dist), if_pos rfl]

/-- Claim C10: `PushBack(v, v[i])` — appending an element of the vector
itself — appends a copy of the value previously at index `i`, even when
it triggers growth, because the new element is constructed (in the new
block) before any existing element is relocated or destroyed; and the
non-growing interior `Emplace` with argument `(*this)[i]` builds the new
value on the side before shifting, so the result is
`xs.insertIdx dist (xs[i])`. -/
theorem aliased_append_and_insert_spec (ntMove copyable : Bool) (v : Vector Nat)
    (xs : List Nat) (i dist a : Nat) (hrep : v.repOk xs) (hi : xs[i]? = some a) :
    (v.emplaceBackAliased ntMove copyable i).repOk (xs ++ [a]) ∧
    (dist < xs.length → v.size < v.capacity →
      (v.emplaceAliasedInterior dist i).1.repOk (xs.insertIdx dist a) ∧
      (v.emplaceAliasedInterior dist i).2 = dist) := by
  obtain ⟨hsz, hcap, hread⟩ := hrep
  have hcapd : v.capacity = v.data.slots.length := rfl
  have htemp : readSlot v.data.slots i = some a := by
    rw [hread i]
    exact hi
  have hil : i < xs.length := by
    by_contra hcon
    rw [getElem?_none_of_le xs i (by omega)] at hi
    exact Option.noConfusion hi
  constructor
  · have hsizeB : (v.emplaceBackAliased ntMove copyable i).size = v.size + 1 := by
      unfold Vector.emplaceBackAliased
      by_cases hfull : v.size = v.capacity
      · rw [if_pos hfull]
      · rw [if_neg hfull]
    have hcapB : v.size + 1 ≤ (v.emplaceBackAliased ntMove copyable i).capacity := by
      unfold Vector.emplaceBackAliased
      by_cases hfull : v.size = v.capacity
      · rw [if_pos hfull]
        simp only [Vector.capacity, RawMemory.Capacity, MoveOrCopyAndSwap,
          MoveOrCopy_fst_length, List.length_set, List.length_replicate,
          RawMemory.ofCapacity]
        by_cases h0 : v.size = 0
        · rw [if_pos h0]
          omega
        · rw [if_neg h0]
          omega
      · rw [if_neg hfull]
        simp only [Vector.capacity, RawMemory.Capacity, List.length_set]
        omega
    have hptB : ∀ j, readSlot (v.emplaceBackAliased ntMove copyable i).data.slots j =
        if j < xs.length then xs[j]? else if j = xs.length then some a else none := by
      intro j
      unfold Vector.emplaceBackAliased
      by_cases hfull : v.size = v.capacity
      · rw [if_pos hfull]
        simp only [MoveOrCopyAndSwap, MoveOrCopy_fst, RawMemory.ofCapacity]
        set K := if v.size = 0 then 1 else v.size * 2 with hKdef
        have hK : v.size + 1 ≤ K := by
          by_cases h0 : v.size = 0
          · simp [hKdef, h0]
          · rw [hKdef, if_neg h0]
            omega
        rw [readSlot_uninitializedCopyN _ _ _ _ _ _
          (by simp only [List.length_set, List.length_replicate]; omega)]
        rw [readSlot_set]
        simp only [List.length_replicate]
        by_cases h1 : j < xs.length
        · rw [if_pos (show 0 ≤ j ∧ j < 0 + v.size by omega),
            (by omega : 0 + (j - 0) = j), hread j, if_pos h1]
        · by_cases h2 : j = xs.length
          · rw [if_neg (show ¬(0 ≤ j ∧ j < 0 + v.size) by omega),
              if_pos (show j = v.size ∧ v.size < K by omega), htemp,
              if_neg h1, if_pos h2]
          · rw [if_neg (show ¬(0 ≤ j ∧ j < 0 + v.size) by omega),
              if_neg (show ¬(j = v.size ∧ v.size < K) by omega), readSlot_replicate,
              if_neg h1, if_neg h2]
      · rw [if_neg hfull]
        simp only
        rw [readSlot_set]
        by_cases h2 : j = xs.length
        · rw [if_pos (show j = v.size ∧ v.size < v.data.slots.length by omega), htemp,
            if_neg (show ¬j < xs.length by omega), if_pos h2]
        · rw [if_neg (show ¬(j = v.size ∧ v.size < v.data.slots.length) by omega), hread j]
          by_cases h1 : j < xs.length
          · rw [if_pos h1]
          · rw [if_neg h1, if_neg h2, getElem?_none_of_le xs j (by omega)]
    refine ⟨?_, ?_, ?_⟩
    · rw [hsizeB, hsz]
      simp
    · simp only [List.length_append, List.length_cons, List.length_nil]
      have := hcapB
      omega
    · intro j
      rw [hptB j, show ([a] : List Nat) = List.replicate 1 a from rfl,
        getElem?_append_replicate]
      by_cases h1 : j < xs.length
      · rw [if_pos h1, if_pos h1]
      · rw [if_neg h1, if_neg h1]
        by_cases h2 : j = xs.length
        · rw [if_pos h2, if_pos (by omega)]
        · rw [if_neg h2, if_neg (by omega)]
  · intro hd hlt2
    have hdlt : dist < v.size := by omega
    have hslen : v.size < v.data.slots.length := by omega
    have hcapI : (v.emplaceAliasedInterior dist i).1.capacity = v.data.slots.length := by
      unfold Vector.emplaceAliasedInterior
      simp [Vector.capacity, RawMemory.Capacity, moveBackwardOne_length]
    have hptI : ∀ j, readSlot (v.emplaceAliasedInterior dist i).1.data.slots j =
        if j < dist then xs[j]? else if j = dist then some a else xs[j - 1]? := by
      intro j
      unfold Vector.emplaceAliasedInterior
      simp only
      rw [readSlot_set, readSlot_set,
        readSlot_moveBackwardOne _ _ _ _ (by simp only [List.length_set]; omega)]
      simp only [readSlot_set, List.length_set, moveBackwardOne_length, hread, hi]
      by_cases h1 : j = dist
      · subst h1
        rw [if_pos (show j = j ∧ j < v.data.slots.length by omega),
          if_neg (lt_irrefl j), if_pos rfl]
      · rw [if_neg (show ¬(j = dist ∧ dist < v.data.slots.length) by omega),
          if_neg (show ¬(j = dist ∧ dist < v.data.slots.length) by omega)]
        by_cases h2 : j < dist
        · rw [if_neg (show ¬(dist + 1 ≤ j ∧ j ≤ dist + (v.size - 1 - dist)) by omega),
            if_neg (show ¬(j = v.size ∧ v.size < v.data.slots.length) by omega),
            if_pos h2]
        · by_cases h3 : j ≤ v.size - 1
          · rw [if_pos (show dist + 1 ≤ j ∧ j ≤ dist + (v.size - 1 - dist) by omega),
              if_neg (show ¬(j - 1 = v.size ∧ v.size < v.data.slots.length) by omega),
              if_neg h2, if_neg h1]
          · by_cases h4 : j = v.size
            · rw [if_neg (show ¬(dist + 1 ≤ j ∧ j ≤ dist + (v.size - 1 - dist)) by omega),
                if_pos (show j = v.size ∧ v.size < v.data.slots.length by omega),
                if_neg h2, if_neg h1, (by omega : j - 1 = v.size - 1)]
            · rw [if_neg (show ¬(dist + 1 ≤ j ∧ j ≤ dist + (v.size - 1 - dist)) by omega),
                if_neg (show ¬(j = v.size ∧ v.size < v.data.slots.length) by omega),
                if_neg h2, if_neg h1,
                getElem?_none_of_le xs j (by omega),
                getElem?_none_of_le xs (j - 1) (by omega)]
    have hlen : (xs.insertIdx dist a).length = xs.length + 1 :=
      List.length_insertIdx dist xs (by omega)
    refine ⟨⟨?_, ?_, ?_⟩, rfl⟩
    · show v.size + 1 = _
      rw [hlen, hsz]
    · rw [hlen, hcapI]
      omega
    · intro j
      rw [hptI j, getElem?_insertIdx dist a xs (by omega) j]

/-- Witness for claim C6: `Emplace` at position 1 of the full-capacity
two-element vector `{5, 6}` (growth path), with hypotheses discharged at
the concrete input. -/
theorem emplace_insert_spec_witness :
    (Vector.mk ⟨List.map some [5, 6] ++ List.replicate 0 none⟩ 2 : Vector Nat).repOk [5, 6] ∧
    (1 : Nat) ≤ ([5, 6] : List Nat).length ∧
    (((Vector.mk ⟨List.map some [5, 6] ++ List.replicate 0 none⟩ 2 : Vector Nat).Emplace
        true true 1 9).1.repOk ([5, 6].insertIdx 1 9) ∧
      ((Vector.mk ⟨List.map some [5, 6] ++ List.replicate 0 none⟩ 2 : Vector Nat).Emplace
        true true 1 9).1.size = ([5, 6] : List Nat).length + 1 ∧
      ((Vector.mk ⟨List.map some [5, 6] ++ List.replicate 0 none⟩ 2 : Vector Nat).Emplace
        true true 1 9).2 = 1 ∧
      readSlot ((Vector.mk ⟨List.map some [5, 6] ++ List.replicate 0 none⟩ 2 :
        Vector Nat).Emplace true true 1 9).1.data.slots 1 = some 9 ∧
      (Vector.mk ⟨List.map some [5, 6] ++ List.replicate 0 none⟩ 2 : Vector Nat).Insert
          true true 1 9 =
        (Vector.mk ⟨List.map some [5, 6] ++ List.replicate 0 none⟩ 2 : Vector Nat).Emplace
          true true 1 9) :=
  ⟨repOk_canonical [5, 6] 0, by decide,
    emplace_insert_spec true true _ [5, 6] 1 9 (repOk_canonical [5, 6] 0) (by decide)⟩

/-- Witness for claim C8: `Resize` from length 2 (capacity 3) up to 4,
which exercises the reserve-then-value-construct path, with hypotheses
discharged at the concrete input. -/
theorem resize_spec_witness :
    (Vector.mk ⟨List.map some [1, 2] ++ List.replicate 1 none⟩ 2 : Vector Nat).repOk [1, 2] ∧
    ([1, 2] : List Nat).length < 4 ∧
    ((Vector.mk ⟨List.map some [1, 2] ++ List.replicate 1 none⟩ 2 : Vector Nat).Resize
        true true 4).repOk ([1, 2] ++ List.replicate (4 - ([1, 2] : List Nat).length) 0) ∧
    ((Vector.mk ⟨List.map some [1, 2] ++ List.replicate 1 none⟩ 2 : Vector Nat).Resize
        true true 4).capacity = 4 := by
  have h := resize_spec true true
    (Vector.mk ⟨List.map some [1, 2] ++ List.replicate 1 none⟩ 2 : Vector Nat)
    [1, 2] 4 (repOk_canonical [1, 2] 1)
  have h2 := h.2.1 (by decide)
  exact ⟨repOk_canonical [1, 2] 1, by decide, h2.1, by rw [h2.2]; decide⟩

/-- Witness for claim C10: self-referencing append and interior insert on
the vector `{7, 8}` with capacity 3, with hypotheses discharged at the
concrete input. -/
theorem aliased_append_and_insert_spec_witness :
    (Vector.mk ⟨List.map some [7, 8] ++ List.replicate 1 none⟩ 2 : Vector Nat).repOk [7, 8] ∧
    ([7, 8] : List Nat)[0]? = some 7 ∧
    ((Vector.mk ⟨List.map some [7, 8] ++ List.replicate 1 none⟩ 2 :
        Vector Nat).emplaceBackAliased true true 0).repOk ([7, 8] ++ [7]) ∧
    (((Vector.mk ⟨List.map some [7, 8] ++ List.replicate 1 none⟩ 2 :
          Vector Nat).emplaceAliasedInterior 1 0).1.repOk ([7, 8].insertIdx 1 7) ∧
      ((Vector.mk ⟨List.map some [7, 8] ++ List.replicate 1 none⟩ 2 :
          Vector Nat).emplaceAliasedInterior 1 0).2 = 1) := by
  have h := aliased_append_and_insert_spec true true
    (Vector.mk ⟨List.map some [7, 8] ++ List.replicate 1 none⟩ 2 : Vector Nat)
    [7, 8] 0 1 7 (repOk_canonical [7, 8] 1) (by decide)
  exact ⟨repOk_canonical [7, 8] 1, by decide, h.1, h.2 (by decide) (by decide)⟩
